import Mathlib

/-!
Verification development for the forensic STR parent-child matching engine
(repository `Forensic-STR-Parent-Child-Relationship-Detection-at-Scale`).

The repository contains several near-duplicate implementations of the same
engine; the claims cite three of them:
  * `src/codechallenge2025/participant_solution.py`  (namespace `Participant`)
  * `src/codechallenge2025/submissions/mhngar_20251220.py`  (namespace `Mhngar`)
  * `src/codechallenge2025/submissions/AmiraliShadi_20251218.py` (namespace `Amirali`)

Python floats are idealised as exact rationals (ℚ) where the code only uses
field arithmetic, and as real numbers (ℝ) where the code takes `math.log10`
or `10.0 ** x`.  A pandas cell is `Option String`, with `none` standing for
NaN.  Python's `str.strip`, `str.split(",")` and `float(...)` (on the plain
decimal literals that occur in STR data) are modelled by executable
character-list functions below.
-/

namespace STRMatch

/-- A raw cell value as read from the CSV / DataFrame. `none` models NaN. -/
abbrev Cell := Option String

/-- Characters removed by Python `str.strip()`. -/
def isSpaceChar (c : Char) : Bool := c.isWhitespace

/-- Remove leading and trailing whitespace from a character list. -/
def stripChars (l : List Char) : List Char :=
  ((l.dropWhile isSpaceChar).reverse.dropWhile isSpaceChar).reverse

/-- Python `str.strip()`. -/
def pyStrip (s : String) : String := (stripChars s.data).asString

/-- Python `str.split(",")` on a character list: splits at every comma,
keeping empty pieces, and yields `[[]]` on the empty string. -/
def splitOnComma : List Char → List (List Char)
  | [] => [[]]
  | c :: rest =>
    if c = ',' then [] :: splitOnComma rest
    else
      match splitOnComma rest with
      | [] => [[c]]
      | g :: gs => (c :: g) :: gs

/-- Python `s.split(",")` producing strings. -/
def pySplit (s : String) : List String := (splitOnComma s.data).map List.asString

/-- Numeric value of a digit list (most significant first). -/
def digitsToNat (l : List Char) : Nat :=
  l.foldl (fun a c => a * 10 + (c.toNat - 48)) 0

/-- Parse an unsigned decimal literal (`"13"`, `"9.3"`, `"5."`, `".5"`),
the shapes Python's `float(...)` accepts among STR allele tokens.
Any other token is rejected (`none`), modelling `float(...)` raising
`ValueError`. -/
def pyFloatUnsigned (l : List Char) : Option ℚ :=
  let intPart := l.takeWhile Char.isDigit
  let rest := l.dropWhile Char.isDigit
  match rest with
  | [] => if intPart = [] then none else some (digitsToNat intPart)
  | '.' :: frac =>
    if frac.all Char.isDigit ∧ (intPart ≠ [] ∨ frac ≠ []) then
      some ((digitsToNat intPart : ℚ) + (digitsToNat frac : ℚ) / (10 : ℚ) ^ frac.length)
    else none
  | _ => none

/-- Python `float(token)` for decimal literals, with an optional sign;
`none` models a raised `ValueError`. -/
def pyFloat? (s : String) : Option ℚ :=
  match s.data with
  | '+' :: rest => pyFloatUnsigned rest
  | '-' :: rest => (pyFloatUnsigned rest).map Neg.neg
  | l => pyFloatUnsigned l

/-- Association-list lookup (Python `dict` access with `DecidableEq` keys). -/
def assocFind {α β : Type} [DecidableEq α] : List (α × β) → α → Option β
  | [], _ => none
  | p :: rest, k => if p.1 = k then some p.2 else assocFind rest k

namespace Participant

/-- The hard-coded `ALLELE_FREQS` table of `participant_solution.py`
(locus name ↦ allele ↦ population frequency). -/
def ALLELE_FREQS : List (String × List (ℚ × ℚ)) :=
  [("D3S1358", [(14, 0.15), (15, 0.25), (16, 0.22), (17, 0.20), (18, 0.13), (19, 0.05)]),
   ("vWA", [(14, 0.10), (15, 0.12), (16, 0.20), (17, 0.25), (18, 0.20), (19, 0.10), (20, 0.03)]),
   ("FGA", [(19, 0.05), (20, 0.10), (21, 0.15), (22, 0.20), (23, 0.18), (24, 0.15), (25, 0.10), (26, 0.07)]),
   ("D8S1179", [(10, 0.05), (11, 0.08), (12, 0.10), (13, 0.30), (14, 0.25), (15, 0.15), (16, 0.07)]),
   ("D21S11", [(27, 0.05), (28, 0.15), (29, 0.20), (30, 0.25), (31, 0.15), (32, 0.10), (30.2, 0.08), (31.2, 0.02)]),
   ("D18S51", [(12, 0.08), (13, 0.15), (14, 0.20), (15, 0.18), (16, 0.12), (17, 0.10), (18, 0.08), (19, 0.06), (20, 0.03)]),
   ("D5S818", [(9, 0.05), (10, 0.08), (11, 0.25), (12, 0.30), (13, 0.20), (14, 0.10), (15, 0.02)]),
   ("D13S317", [(8, 0.05), (9, 0.08), (10, 0.10), (11, 0.25), (12, 0.20), (13, 0.18), (14, 0.12), (15, 0.02)]),
   ("D7S820", [(8, 0.10), (9, 0.12), (10, 0.25), (11, 0.28), (12, 0.15), (13, 0.08), (14, 0.02)]),
   ("D16S539", [(8, 0.05), (9, 0.20), (10, 0.15), (11, 0.25), (12, 0.20), (13, 0.10), (14, 0.05)]),
   ("TH01", [(6, 0.20), (7, 0.15), (8, 0.18), (9, 0.22), (9.3, 0.15), (10, 0.08), (11, 0.02)]),
   ("TPOX", [(8, 0.40), (9, 0.10), (10, 0.12), (11, 0.25), (12, 0.10), (13, 0.03)]),
   ("CSF1PO", [(9, 0.05), (10, 0.20), (11, 0.25), (12, 0.30), (13, 0.12), (14, 0.08)]),
   ("D2S1338", [(17, 0.08), (18, 0.05), (19, 0.10), (20, 0.15), (21, 0.08), (22, 0.07), (23, 0.12), (24, 0.15), (25, 0.15)]),
   ("D19S433", [(13, 0.15), (14, 0.30), (14.2, 0.05), (15, 0.20), (15.2, 0.05), (16, 0.15), (17, 0.10)]),
   ("D22S1045", [(11, 0.10), (14, 0.08), (15, 0.30), (16, 0.35), (17, 0.12), (18, 0.05)]),
   ("D10S1248", [(11, 0.05), (12, 0.08), (13, 0.25), (14, 0.30), (15, 0.20), (16, 0.10), (17, 0.02)]),
   ("D1S1656", [(12, 0.10), (13, 0.08), (14, 0.05), (15, 0.12), (16, 0.15), (17, 0.20), (17.3, 0.10), (18, 0.10), (18.3, 0.05)]),
   ("D12S391", [(17, 0.05), (18, 0.15), (19, 0.12), (20, 0.20), (21, 0.18), (22, 0.15), (23, 0.10), (24, 0.05)]),
   ("D2S441", [(10, 0.10), (11, 0.20), (11.3, 0.05), (12, 0.08), (13, 0.10), (14, 0.25), (15, 0.15), (16, 0.07)]),
   ("SE33", [(19, 0.05), (20, 0.08), (21, 0.10), (22, 0.12), (23, 0.10), (24, 0.08), (25, 0.12), (26, 0.10), (27, 0.10), (28, 0.08), (29, 0.07)])]

/-- `DEFAULT_FREQ = 0.01`. -/
def DEFAULT_FREQ : ℚ := 0.01

/-- `get_freq(locus, allele)` of `participant_solution.py`. -/
def get_freq (locus : String) (a : ℚ) : ℚ :=
  match assocFind ALLELE_FREQS locus with
  | none => DEFAULT_FREQ
  | some d => (assocFind d a).getD DEFAULT_FREQ

/-- `normalize_str(value)` of `participant_solution.py`: NaN, `"-"` and the
empty string (after stripping) become `"-"`; otherwise the stripped text. -/
def normalize_str (v : Cell) : String :=
  match v with
  | none => "-"
  | some s => if pyStrip s = "-" ∨ pyStrip s = "" then "-" else pyStrip s

/-- `parse_alleles(value)` of `participant_solution.py`: strip, split on
commas, strip each token, drop empty and `"-"` tokens, keep the tokens that
parse as decimal numbers (a failing `float` is swallowed by `try/except`). -/
def parse_alleles (v : Cell) : Finset ℚ :=
  match v with
  | none => ∅
  | some s =>
    if pyStrip s = "-" ∨ pyStrip s = "" then ∅
    else
      (((pySplit (pyStrip s)).map pyStrip).filterMap
        (fun p => if p ≠ "" ∧ p ≠ "-" then pyFloat? p else none)).toFinset

/-- `analyze_locus(query_str, candidate_str, locus)` of
`participant_solution.py`: returns the classification tag and the
multiplicative CLR factor (the dict keys `type` and `score`). -/
def analyze_locus (qv cv : Cell) (locus : String) : String × ℚ :=
  if normalize_str qv = "-" ∨ normalize_str cv = "-" then ("missing", 1)
  else if hs : ((parse_alleles qv) ∩ (parse_alleles cv)).Nonempty then
    (if normalize_str qv = normalize_str cv then "identical" else "partial",
      1 / ((parse_alleles qv ∩ parse_alleles cv).inf' hs (get_freq locus)))
  else if ∃ x ∈ parse_alleles qv, ∃ y ∈ parse_alleles cv, 0 < |x - y| ∧ |x - y| ≤ 1 then
    ("mutation", 0.1)
  else ("mismatch", 0.0001)

/-- Per-candidate counters accumulated by the `for locus in loci` loop of
`match_single` (`total_lr` and the five classification counters). -/
structure Tally where
  total : ℚ
  identCnt : Nat
  partCnt : Nat
  misCnt : Nat
  mutCnt : Nat
  missCnt : Nat
deriving DecidableEq

/-- One iteration of the locus loop of `match_single`. -/
def tallyStep (q r : String → Cell) (t : Tally) (locus : String) : Tally :=
  let res := analyze_locus (q locus) (r locus) locus
  ⟨t.total * res.2,
   if res.1 = "identical" then t.identCnt + 1 else t.identCnt,
   if res.1 = "partial" then t.partCnt + 1 else t.partCnt,
   if res.1 = "mismatch" then t.misCnt + 1 else t.misCnt,
   if res.1 = "mutation" then t.mutCnt + 1 else t.mutCnt,
   if res.1 = "identical" ∨ res.1 = "partial" ∨ res.1 = "mismatch" ∨ res.1 = "mutation"
   then t.missCnt else t.missCnt + 1⟩

/-- The whole locus loop of `match_single` for one candidate row. -/
def tallyProfile (q r : String → Cell) (loci : List String) : Tally :=
  loci.foldl (tallyStep q r) ⟨1, 0, 0, 0, 0, 0⟩

/-- One output record of `match_single` (the emitted dict). -/
structure MatchRec where
  person_id : String
  clr : ℚ
  posterior : ℚ
  consistent_loci : Nat
  mutated_loci : Nat
  inconclusive_loci : Nat
deriving DecidableEq

/-- The per-candidate body of `match_single`: skip self, run the locus loop,
apply the `mismatch_count > 2` and `partial_count < 3` filters, and build the
record with `clr = total_lr * (1 + partial_count * 0.5)` and
`posterior = partial_count / 21.0`. -/
def emitRecord (qid : String) (q : String → Cell) (loci : List String)
    (rid : String) (r : String → Cell) : Option MatchRec :=
  if rid = qid then none
  else if 2 < (tallyProfile q r loci).misCnt then none
  else if (tallyProfile q r loci).partCnt < 3 then none
  else some ⟨rid,
    (tallyProfile q r loci).total * (1 + ((tallyProfile q r loci).partCnt : ℚ) * 0.5),
    ((tallyProfile q r loci).partCnt : ℚ) / 21,
    (tallyProfile q r loci).identCnt + (tallyProfile q r loci).partCnt,
    (tallyProfile q r loci).mutCnt, (tallyProfile q r loci).missCnt⟩

/-- Stable insertion for descending sort by `clr` (Python's stable
`list.sort(key=..., reverse=True)`). -/
def insertByClr (x : MatchRec) : List MatchRec → List MatchRec
  | [] => [x]
  | y :: ys => if y.clr < x.clr then x :: y :: ys else y :: insertByClr x ys

/-- Stable descending sort by `clr`. -/
def sortDesc (l : List MatchRec) : List MatchRec :=
  l.foldl (fun acc x => insertByClr x acc) []

/-- `match_single(query_profile, database_df)` of `participant_solution.py`:
the database is a list of `(PersonID, cells)` rows, the query a `PersonID`
plus a cell map (Python's `dict.get(locus, "-")` makes it total). -/
def match_single (qid : String) (q : String → Cell) (loci : List String)
    (db : List (String × (String → Cell))) : List MatchRec :=
  (sortDesc (db.filterMap (fun r => emitRecord qid q loci r.1 r.2))).take 10

end Participant

namespace Mhngar

/-- `parse_alleles(allele_str)` of `mhngar_20251220.py`: NaN, `"-"` and `""`
(checked without stripping) give the empty set; otherwise the raw value is
split on commas and the stripped, non-empty tokens are kept AS STRINGS
(no numeric validation at all). -/
def parse_alleles (v : Cell) : Finset String :=
  match v with
  | none => ∅
  | some s =>
    if s = "-" ∨ s = "" then ∅
    else ((pySplit s).filterMap
      (fun a => if pyStrip a = "" then none else some (pyStrip a))).toFinset

/-- `allele_to_numeric(allele)`: `float(allele)`, with `none` modelling the
`float('inf')` sentinel returned for non-numeric alleles. -/
def allele_to_numeric (a : String) : Option ℚ := pyFloat? a

/-- `check_mutation(allele1, allele2)`: true iff both alleles are numeric and
differ by exactly one repeat unit. -/
def check_mutation (a b : String) : Bool :=
  match allele_to_numeric a, allele_to_numeric b with
  | some x, some y => |x - y| = 1
  | _, _ => false

/-- The per-allele paternity-index term of `compute_locus_lr`:
`P(allele|parent) / max(freq, 0.0001)` with `P = 1.0` for a homozygous
parent (allele-set cardinality 1) and `0.5` otherwise, and the frequency
looked up with default `0.0001`. -/
noncomputable def lrOf (parent : Finset String) (freqs : String → Option ℝ) (a : String) : ℝ :=
  (if parent.card = 1 then (1 : ℝ) else 1 / 2) / max ((freqs a).getD 0.0001) 0.0001

/-- The combined shared-allele likelihood ratio of `compute_locus_lr`
(`combined_lr` in the source): the loop computes `total_lr` as the sum of
the per-allele ratios and `best_single_lr` as their maximum against an
initial `0.0`; with more than one exact match and a heterozygous child the
square root of the total is used, otherwise the best single ratio. -/
noncomputable def consistentLR (child parent : Finset String) (freqs : String → Option ℝ) : ℝ :=
  if 1 < (child ∩ parent).card ∧ 1 < child.card then
    (if 0 < (child ∩ parent).sum (lrOf parent freqs) then
      Real.sqrt ((child ∩ parent).sum (lrOf parent freqs))
    else Finset.fold max 0 (lrOf parent freqs) (child ∩ parent))
  else Finset.fold max 0 (lrOf parent freqs) (child ∩ parent)

/-- `compute_locus_lr(child_alleles, parent_alleles, allele_freqs,
mutation_rate)` of `mhngar_20251220.py`: returns the log10 contribution and
the status string. -/
noncomputable def compute_locus_lr (child parent : Finset String)
    (freqs : String → Option ℝ) (mr : ℝ) : ℝ × String :=
  if child = ∅ ∨ parent = ∅ then (0, "missing")
  else if (child ∩ parent).Nonempty then
    (if 0 < consistentLR child parent freqs then
      Real.logb 10 (max (consistentLR child parent freqs) 1)
    else 0, "consistent")
  else if hp : ((child ×ˢ parent).filter (fun pr => check_mutation pr.1 pr.2)).Nonempty then
    (Real.logb 10 (max
      (((child ×ˢ parent).filter (fun pr => check_mutation pr.1 pr.2)).sup' hp
        (fun pr => (if parent.card = 1 then mr * 1.3 else mr * 1.6) /
          max ((freqs pr.1).getD 0.0001) 0.0001))
      0.000001), "mutation")
  else (Real.logb 10 0.000001, "exclusion")

/-- The per-locus accumulator of `compute_clr_bidirectional` (log sums,
status counters for both orientations, and the both-alleles-match counters
used by the sibling penalty). -/
structure BidirState where
  logChild : ℝ
  logParent : ℝ
  consChild : Nat
  consParent : Nat
  mutChild : Nat
  mutParent : Nat
  missChild : Nat
  missParent : Nat
  exclChild : Nat
  exclParent : Nat
  bothMatchChild : Nat
  bothMatchParent : Nat

/-- Increment a counter when the status string matches. -/
def bumpIf (tag : String) (s : String) (n : Nat) : Nat := if s = tag then n + 1 else n

/-- One iteration of the `for locus in locus_columns` loop of
`compute_clr_bidirectional` (default `mutation_rate = 0.002`). -/
noncomputable def bidirStep (freqs : String → String → Option ℝ) (q cand : String → Cell)
    (st : BidirState) (locus : String) : BidirState :=
  let qa := parse_alleles (q locus)
  let ca := parse_alleles (cand locus)
  let bm := if qa.card = 2 ∧ ca.card = 2 ∧ qa = ca then 1 else 0
  let r1 := compute_locus_lr qa ca (freqs locus) 0.002
  let r2 := compute_locus_lr ca qa (freqs locus) 0.002
  ⟨st.logChild + r1.1, st.logParent + r2.1,
   bumpIf "consistent" r1.2 st.consChild, bumpIf "consistent" r2.2 st.consParent,
   bumpIf "mutation" r1.2 st.mutChild, bumpIf "mutation" r2.2 st.mutParent,
   bumpIf "missing" r1.2 st.missChild, bumpIf "missing" r2.2 st.missParent,
   bumpIf "exclusion" r1.2 st.exclChild, bumpIf "exclusion" r2.2 st.exclParent,
   st.bothMatchChild + bm, st.bothMatchParent + bm⟩

/-- `compute_clr_bidirectional(query_profile, candidate_row, allele_freqs,
locus_columns)` of `mhngar_20251220.py`: accumulates both orientations,
applies the sibling (both-alleles-match) penalty to both log sums, then
selects an orientation: with `|lr_diff| < 2.5` the tie-break cascade
(fewer exclusions, more consistent loci, fewer mutations) fires first, and
otherwise (or when every tie-break is even) the larger log-likelihood wins.
Returns `(clr, consistent, mutated, missing, role)`. -/
noncomputable def compute_clr_bidirectional (q cand : String → Cell)
    (freqs : String → String → Option ℝ) (loci : List String) :
    ℝ × Nat × Nat × Nat × String :=
  let st := loci.foldl (bidirStep freqs q cand) ⟨0, 0, 0, 0, 0, 0, 0, 0, 0, 0, 0, 0⟩
  let nonMissing := st.consChild + st.mutChild + st.exclChild
  let pen : ℝ :=
    if 5 < nonMissing ∧ (0.16 : ℝ) < (st.bothMatchChild : ℝ) / ((max nonMissing 1 : ℕ) : ℝ) then
      min 3.8 (((st.bothMatchChild : ℝ) / ((max nonMissing 1 : ℕ) : ℝ) - 0.16) * 20)
    else 0
  let lc := st.logChild - pen
  let lp := st.logParent - pen
  let childRes : ℝ × Nat × Nat × Nat × String :=
    ((10 : ℝ) ^ lc, st.consChild, st.mutChild, st.missChild, "candidate_parent")
  let parentRes : ℝ × Nat × Nat × Nat × String :=
    ((10 : ℝ) ^ lp, st.consParent, st.mutParent, st.missParent, "candidate_child")
  if |lc - lp| < 2.5 ∧ st.exclChild < st.exclParent then childRes
  else if |lc - lp| < 2.5 ∧ st.exclParent < st.exclChild then parentRes
  else if |lc - lp| < 2.5 ∧ st.consParent < st.consChild then childRes
  else if |lc - lp| < 2.5 ∧ st.consChild < st.consParent then parentRes
  else if |lc - lp| < 2.5 ∧ st.mutChild < st.mutParent then childRes
  else if |lc - lp| < 2.5 ∧ st.mutParent < st.mutChild then parentRes
  else if lp ≤ lc then childRes else parentRes

/-- `prior = 0.5` of `match_single` (line 576). -/
noncomputable def prior : ℝ := 0.5

/-- The posterior computed by `match_single` at lines 575-577:
`posterior = (clr * prior) / (clr * prior + (1 - prior))`. -/
noncomputable def posteriorOf (clr : ℝ) : ℝ := (clr * prior) / (clr * prior + (1 - prior))

/-- One database row (`PersonID` plus the locus cells). -/
structure Row where
  id : String
  cells : String → Cell

/-- Content fingerprint of the database, modelling
`hashlib.md5(pd.util.hash_pandas_object(database_df).values).hexdigest()`:
the md5 of the cell values is idealised as the cell values themselves
(collision-free content hash). -/
def fingerprint (loci : List String) (rows : List Row) : List (String × List Cell) :=
  rows.map (fun r => (r.id, loci.map r.cells))

/-- Number of database profiles carrying `allele` at `locus`
(`parse_alleles` returns a set, so a homozygous allele counts once). -/
def allele_count (rows : List Row) (locus allele : String) : Nat :=
  (rows.filter (fun r => allele ∈ parse_alleles (r.cells locus))).length

/-- Total number of distinct per-profile alleles observed at `locus`. -/
def locus_total (rows : List Row) (locus : String) : Nat :=
  (rows.map (fun r => (parse_alleles (r.cells locus)).card)).sum

/-- `compute_allele_frequencies(database_df)`: the nested frequency dict as
a function; a lookup hits (`some`) exactly when the Python dicts contain the
keys (locus is a column and the allele was counted), with value
`count / total`. -/
def compute_allele_frequencies (loci : List String) (rows : List Row) :
    String → String → Option ℚ :=
  fun locus allele =>
    if locus ∈ loci ∧ 0 < locus_total rows locus ∧ 0 < allele_count rows locus allele then
      some ((allele_count rows locus allele : ℚ) / (locus_total rows locus : ℚ))
    else none

/-- `build_inverted_index(database_df)`: `(locus, allele) ↦` list of row
indices carrying that allele at that locus. -/
def build_inverted_index (loci : List String) (rows : List Row) :
    String → String → List Nat :=
  fun locus allele =>
    if locus ∈ loci then
      ((List.range rows.length).zip rows).filterMap
        (fun p => if allele ∈ parse_alleles (p.2.cells locus) then some p.1 else none)
    else []

/-- The module-level cache of `mhngar_20251220.py`
(`_cache_db_hash`, `_cache_allele_freqs`, `_cache_inverted_index`). -/
structure CacheState where
  dbHash : Option (List (String × List Cell))
  freqs : Option (String → String → Option ℚ)
  index : Option (String → String → List Nat)

/-- The cache-maintenance prologue of `match_single` (lines 509-521), in
source order: compute the content hash; rebuild the frequency table AND
update the cached hash when the hash differs or the table is missing; then
rebuild the inverted index when the (just-updated) cached hash differs or
the index is missing. -/
def cacheUpdate (c : CacheState) (loci : List String) (rows : List Row) : CacheState :=
  let h := fingerprint loci rows
  let c1 : CacheState :=
    if c.dbHash ≠ some h ∨ c.freqs.isNone then
      ⟨some h, some (compute_allele_frequencies loci rows), c.index⟩
    else c
  if c1.dbHash ≠ some h ∨ c1.index.isNone then
    ⟨c1.dbHash, c1.freqs, some (build_inverted_index loci rows)⟩
  else c1

end Mhngar

namespace Amirali

/-- The posterior computed by `match_single` of
`AmiraliShadi_20251218.py` (lines 239-241):
`posterior = clr_val / (clr_val + 1) if clr_val > 0 else 0`. -/
noncomputable def posteriorOf (clr : ℝ) : ℝ := if 0 < clr then clr / (clr + 1) else 0

end Amirali

/-! Concrete fixtures used by the counterexample and witness theorems. -/

/-- A query profile carrying `"13,14"` at every locus. -/
def qTwo : String → Cell := fun _ => some "13,14"

/-- A candidate carrying `"13,15"` at every locus (shares allele 13). -/
def rShare : String → Cell := fun _ => some "13,15"

/-- `rShare` with locus `"L4"` dropped out (`"-"`). -/
def rShareMiss : String → Cell := fun l => if l = "L4" then some "-" else rShare l

/-- Candidate A of the mhngar monotonicity counterexample: both alleles
match at `"L1"`, one shared allele at `"L2"`-`"L5"`, missing at `"L6"`. -/
def mCandA : String → Cell :=
  fun l => if l = "L6" then some "-" else if l = "L1" then some "13,14" else some "13,15"

/-- Candidate B: identical to `mCandA` except that the additional locus
`"L6"` now shares alleles with the query (indeed both alleles match). -/
def mCandB : String → Cell :=
  fun l => if l = "L6" then some "13,14" else if l = "L1" then some "13,14" else some "13,15"

/-- The locus list of the mhngar counterexample. -/
def mLoci : List String := ["L1", "L2", "L3", "L4", "L5", "L6"]

/-- A frequency table assigning population frequency 1/4 to the alleles
13, 14 and 15 at every locus. -/
noncomputable def mFreqs : String → String → Option ℝ :=
  fun _ a => if a = "13" ∨ a = "14" ∨ a = "15" then some (1 / 4) else none

/-- Single-locus schema for the cache exhibit. -/
def cLoci : List String := ["L"]

/-- First database snapshot: one profile with allele 13 at locus `L`. -/
def cRowA : Mhngar.Row := ⟨"P1", fun l => if l = "L" then some "13" else none⟩

/-- Mutated snapshot: the same profile now carries allele 14 at locus `L`. -/
def cRowB : Mhngar.Row := ⟨"P1", fun l => if l = "L" then some "14" else none⟩

/-- The difference tracked between the tallies of two candidates that agree
everywhere except at one extra shared locus (with per-locus factor `s`):
B's running product is A's scaled by `s`, B has the same or one more
partial locus, and the same mismatch count. -/
def TallyRel (s : ℚ) (tA tB : Participant.Tally) : Prop :=
  tB.total = tA.total * s ∧
  (tB.partCnt = tA.partCnt ∨ tB.partCnt = tA.partCnt + 1) ∧
  tB.misCnt = tA.misCnt

/-! Helper lemmas. The `Rat` arithmetic of the Batteries library is
`@[irreducible]`; it is made semireducible for the rest of the file so that
fully concrete runs of the (computable) embedded functions can be settled
by `decide`. -/

section Lemmas

attribute [local semireducible] Rat.ofScientific Rat.mul Rat.inv Rat.add Rat.sub

/-- Values produced by `assocFind` come from the association list. -/
theorem assocFind_val_mem {α β : Type} [DecidableEq α] {l : List (α × β)} {k : α} {b : β}
    (h : assocFind l k = some b) : ∃ p ∈ l, p.2 = b := by
  induction l with
  | nil => simp [assocFind] at h
  | cons hd tl ih =>
    unfold assocFind at h
    split at h
    · exact ⟨hd, List.mem_cons_self hd tl, (Option.some.injEq _ _).mp h⟩
    · obtain ⟨p, hp, he⟩ := ih h
      exact ⟨p, List.mem_cons_of_mem _ hp, he⟩

/-- Every frequency stored in the hard-coded table lies in (0, 1]. -/
theorem table_bounds :
    ∀ p ∈ Participant.ALLELE_FREQS, ∀ e ∈ p.2, (0 : ℚ) < e.2 ∧ e.2 ≤ 1 := by decide

/-- `get_freq` is always positive. -/
theorem get_freq_pos (l : String) (a : ℚ) : 0 < Participant.get_freq l a := by
  unfold Participant.get_freq
  split
  · norm_num [Participant.DEFAULT_FREQ]
  · rename_i d hd
    cases hfa : assocFind d a with
    | none => simp [hfa]; norm_num [Participant.DEFAULT_FREQ]
    | some v =>
      simp only [hfa, Option.getD_some]
      obtain ⟨p, hp, hpe⟩ := assocFind_val_mem hd
      obtain ⟨e, he, hee⟩ := assocFind_val_mem hfa
      exact hee ▸ (table_bounds p hp e (hpe ▸ he)).1

/-- `get_freq` never exceeds 1. -/
theorem get_freq_le_one (l : String) (a : ℚ) : Participant.get_freq l a ≤ 1 := by
  unfold Participant.get_freq
  split
  · norm_num [Participant.DEFAULT_FREQ]
  · rename_i d hd
    cases hfa : assocFind d a with
    | none => simp [hfa]; norm_num [Participant.DEFAULT_FREQ]
    | some v =>
      simp only [hfa, Option.getD_some]
      obtain ⟨p, hp, hpe⟩ := assocFind_val_mem hd
      obtain ⟨e, he, hee⟩ := assocFind_val_mem hfa
      exact hee ▸ (table_bounds p hp e (hpe ▸ he)).2

/-- Every per-locus score emitted by `analyze_locus` is positive. -/
theorem analyze_score_pos (qv cv : Cell) (l : String) :
    0 < (Participant.analyze_locus qv cv l).2 := by
  unfold Participant.analyze_locus
  split_ifs with h1 h2 h3 h4
  · norm_num
  · show (0 : ℚ) < 1 / _
    refine div_pos one_pos ?_
    rw [Finset.lt_inf'_iff]
    exact fun b _ => get_freq_pos l b
  · show (0 : ℚ) < 1 / _
    refine div_pos one_pos ?_
    rw [Finset.lt_inf'_iff]
    exact fun b _ => get_freq_pos l b
  · norm_num
  · norm_num

/-- A locus where either side normalises to `"-"` is classified missing with
the neutral factor 1. -/
theorem analyze_missing (qv cv : Cell) (l : String)
    (h : Participant.normalize_str qv = "-" ∨ Participant.normalize_str cv = "-") :
    Participant.analyze_locus qv cv l = ("missing", 1) := by
  unfold Participant.analyze_locus
  rw [if_pos h]

/-- A locus where both sides are present and share an allele is classified
`identical` or `partial`, with a score of at least 1. -/
theorem analyze_shared (qv cv : Cell) (l : String)
    (hq : Participant.normalize_str qv ≠ "-") (hc : Participant.normalize_str cv ≠ "-")
    (hs : (Participant.parse_alleles qv ∩ Participant.parse_alleles cv).Nonempty) :
    ((Participant.analyze_locus qv cv l).1 = "identical" ∨
      (Participant.analyze_locus qv cv l).1 = "partial") ∧
    1 ≤ (Participant.analyze_locus qv cv l).2 ∧
    (Participant.analyze_locus qv cv l).1 ≠ "mismatch" ∧
    (Participant.analyze_locus qv cv l).1 ≠ "missing" := by
  have hpos : (0 : ℚ) <
      (Participant.parse_alleles qv ∩ Participant.parse_alleles cv).inf' hs
        (Participant.get_freq l) := by
    rw [Finset.lt_inf'_iff]
    exact fun b _ => get_freq_pos l b
  have hle : (Participant.parse_alleles qv ∩ Participant.parse_alleles cv).inf' hs
      (Participant.get_freq l) ≤ 1 := by
    obtain ⟨a, ha⟩ := hs
    exact le_trans (Finset.inf'_le _ ha) (get_freq_le_one l a)
  unfold Participant.analyze_locus
  rw [if_neg (by push_neg; exact ⟨hq, hc⟩), dif_pos hs]
  refine ⟨?_, ?_, ?_, ?_⟩
  · dsimp only
    split_ifs
    · exact Or.inl rfl
    · exact Or.inr rfl
  · dsimp only
    rw [le_div_iff₀ hpos, one_mul]
    exact hle
  · dsimp only
    split_ifs <;> decide
  · dsimp only
    split_ifs <;> decide

/-- mhngar: a locus with an empty allele set on either side is neutral. -/
theorem locus_lr_missing (child parent : Finset String) (freqs : String → Option ℝ)
    (mr : ℝ) (h : child = ∅ ∨ parent = ∅) :
    Mhngar.compute_locus_lr child parent freqs mr = (0, "missing") := by
  unfold Mhngar.compute_locus_lr
  rw [if_pos h]

/-- mhngar: with a shared allele the status is `consistent` and the log10
contribution is non-negative (the ratio is floored at 1 before the log). -/
theorem locus_lr_consistent (child parent : Finset String) (freqs : String → Option ℝ)
    (mr : ℝ) (h : (child ∩ parent).Nonempty) :
    0 ≤ (Mhngar.compute_locus_lr child parent freqs mr).1 ∧
    (Mhngar.compute_locus_lr child parent freqs mr).2 = "consistent" := by
  obtain ⟨a, ha⟩ := h
  have hmem := Finset.mem_inter.mp ha
  have hne : ¬(child = ∅ ∨ parent = ∅) :=
    not_or.mpr ⟨Finset.ne_empty_of_mem hmem.1, Finset.ne_empty_of_mem hmem.2⟩
  unfold Mhngar.compute_locus_lr
  rw [if_neg hne, if_pos ⟨a, ha⟩]
  refine ⟨?_, rfl⟩
  dsimp only
  split_ifs
  · exact Real.logb_nonneg (by norm_num) (le_max_right _ 1)
  · exact le_refl 0

/-- mhngar: the per-allele paternity-index term is positive. -/
theorem lrOf_pos (parent : Finset String) (freqs : String → Option ℝ) (a : String) :
    0 < Mhngar.lrOf parent freqs a := by
  unfold Mhngar.lrOf
  refine div_pos ?_ (lt_max_of_lt_right (by norm_num))
  split_ifs <;> norm_num

/-- mhngar: with exactly one shared allele `a` the locus contributes
`log10 (max (P(a|parent) / max(freq a, 1e-4)) 1)` with status `consistent`:
the transmission probability is 1 for a homozygous parent, else 0.5, divided
by the (floored) frequency of the shared allele, floored at 1 before the
logarithm. -/
theorem locus_lr_singleton (child parent : Finset String) (freqs : String → Option ℝ)
    (mr : ℝ) (a : String) (h : child ∩ parent = {a}) :
    Mhngar.compute_locus_lr child parent freqs mr =
      (Real.logb 10 (max (Mhngar.lrOf parent freqs a) 1), "consistent") := by
  have ha : a ∈ child ∩ parent := by rw [h]; exact Finset.mem_singleton_self a
  have hmem := Finset.mem_inter.mp ha
  have hne : ¬(child = ∅ ∨ parent = ∅) :=
    not_or.mpr ⟨Finset.ne_empty_of_mem hmem.1, Finset.ne_empty_of_mem hmem.2⟩
  have hCL : Mhngar.consistentLR child parent freqs = Mhngar.lrOf parent freqs a := by
    unfold Mhngar.consistentLR
    rw [h, Finset.card_singleton]
    rw [if_neg (by simp), Finset.fold_singleton]
    exact max_eq_left (lrOf_pos parent freqs a).le
  unfold Mhngar.compute_locus_lr
  rw [if_neg hne, if_pos (h ▸ Finset.singleton_nonempty a), hCL,
    if_pos (lrOf_pos parent freqs a)]

/-- The locus loop is insensitive to cell values outside the locus list. -/
theorem tallyStep_congr (q rA rB : String → Cell) (t : Participant.Tally) (l : String)
    (h : rA l = rB l) :
    Participant.tallyStep q rA t l = Participant.tallyStep q rB t l := by
  unfold Participant.tallyStep
  rw [h]

/-- Folding the locus loop over candidates that agree on the listed loci
gives the same tally. -/
theorem tallyFold_congr (q rA rB : String → Cell) (L : List String)
    (h : ∀ l ∈ L, rA l = rB l) (t : Participant.Tally) :
    L.foldl (Participant.tallyStep q rA) t = L.foldl (Participant.tallyStep q rB) t := by
  induction L generalizing t with
  | nil => rfl
  | cons hd tl ih =>
    rw [List.foldl_cons, List.foldl_cons,
      tallyStep_congr q rA rB t hd (h hd (List.mem_cons_self hd tl))]
    exact ih (fun l hl => h l (List.mem_cons_of_mem hd hl)) _

/-- One common locus step preserves the scaled-tally relation. -/
theorem tallyStep_rel (q r : String → Cell) (l : String) (s : ℚ)
    (tA tB : Participant.Tally) (h : TallyRel s tA tB) :
    TallyRel s (Participant.tallyStep q r tA l) (Participant.tallyStep q r tB l) := by
  obtain ⟨ht, hp, hm⟩ := h
  unfold Participant.tallyStep
  refine ⟨?_, ?_, ?_⟩
  · dsimp only
    rw [ht]
    ring
  · dsimp only
    split_ifs
    · rcases hp with h | h
      · exact Or.inl (by rw [h])
      · exact Or.inr (by rw [h])
    · exact hp
  · dsimp only
    split_ifs
    · rw [hm]
    · exact hm

/-- The whole remaining locus loop preserves the scaled-tally relation. -/
theorem tallyFold_rel (q r : String → Cell) (L : List String) (s : ℚ)
    (tA tB : Participant.Tally) (h : TallyRel s tA tB) :
    TallyRel s (L.foldl (Participant.tallyStep q r) tA)
      (L.foldl (Participant.tallyStep q r) tB) := by
  induction L generalizing tA tB with
  | nil => exact h
  | cons hd tl ih => exact ih _ _ (tallyStep_rel q r hd s tA tB h)

/-- The running product of per-locus factors stays positive. -/
theorem tallyFold_total_pos (q r : String → Cell) (L : List String)
    (t : Participant.Tally) (h : 0 < t.total) :
    0 < (L.foldl (Participant.tallyStep q r) t).total := by
  induction L generalizing t with
  | nil => exact h
  | cons hd tl ih =>
    rw [List.foldl_cons]
    exact ih _ (mul_pos h (analyze_score_pos (q hd) (r hd) hd))

/-- C6 (amended): in `participant_solution.py` the monotonicity does hold:
for a query and two candidate profiles identical except that candidate B has
one additional locus `lx` (missing/`"-"` for candidate A) sharing at least
one allele with the query, whenever A is scored and emitted by
`match_single`'s per-candidate body, B is emitted as well and B's clr is
greater than or equal to A's.  (The claim as stated over the mhngar
submission is false, see the counterexample.) -/
theorem C6_amended_thm (qid rid : String) (q rA rB : String → Cell)
    (L1 L2 : List String) (lx : String)
    (hcells : ∀ l, l ≠ lx → rA l = rB l)
    (h1 : lx ∉ L1) (h2 : lx ∉ L2)
    (hAmiss : Participant.normalize_str (rA lx) = "-")
    (hqn : Participant.normalize_str (q lx) ≠ "-")
    (hcn : Participant.normalize_str (rB lx) ≠ "-")
    (hshared : (Participant.parse_alleles (q lx) ∩ Participant.parse_alleles (rB lx)).Nonempty)
    (recA : Participant.MatchRec)
    (hemit : Participant.emitRecord qid q (L1 ++ lx :: L2) rid rA = some recA) :
    ∃ recB, Participant.emitRecord qid q (L1 ++ lx :: L2) rid rB = some recB ∧
      recA.clr ≤ recB.clr := by
  obtain ⟨htagB, hscB, hmisB, hmissB⟩ :=
    analyze_shared (q lx) (rB lx) lx hqn hcn hshared
  -- split the locus loop of both candidates around lx
  have hsplitA : Participant.tallyProfile q rA (L1 ++ lx :: L2) =
      L2.foldl (Participant.tallyStep q rA)
        (Participant.tallyStep q rA
          (L1.foldl (Participant.tallyStep q rA) ⟨1, 0, 0, 0, 0, 0⟩) lx) := by
    unfold Participant.tallyProfile
    rw [List.foldl_append, List.foldl_cons]
  have hsplitB : Participant.tallyProfile q rB (L1 ++ lx :: L2) =
      L2.foldl (Participant.tallyStep q rB)
        (Participant.tallyStep q rB
          (L1.foldl (Participant.tallyStep q rB) ⟨1, 0, 0, 0, 0, 0⟩) lx) := by
    unfold Participant.tallyProfile
    rw [List.foldl_append, List.foldl_cons]
  have hL1 : L1.foldl (Participant.tallyStep q rB) ⟨1, 0, 0, 0, 0, 0⟩ =
      L1.foldl (Participant.tallyStep q rA) ⟨1, 0, 0, 0, 0, 0⟩ :=
    (tallyFold_congr q rA rB L1 (fun l hl => hcells l (fun he => h1 (he ▸ hl))) _).symm
  -- the step at lx : A is neutral missing, B is shared with factor ≥ 1
  have hrel : TallyRel (Participant.analyze_locus (q lx) (rB lx) lx).2
      (Participant.tallyStep q rA
        (L1.foldl (Participant.tallyStep q rA) ⟨1, 0, 0, 0, 0, 0⟩) lx)
      (Participant.tallyStep q rB
        (L1.foldl (Participant.tallyStep q rA) ⟨1, 0, 0, 0, 0, 0⟩) lx) := by
    unfold Participant.tallyStep
    rw [analyze_missing (q lx) (rA lx) lx (Or.inr hAmiss)]
    refine ⟨?_, ?_, ?_⟩
    · dsimp only
      simp only [mul_one]
    · dsimp only
      simp only [show ("missing" = "partial") = False from by simp, if_false]
      split_ifs
      · exact Or.inr rfl
      · exact Or.inl rfl
    · dsimp only
      simp only [show ("missing" = "mismatch") = False from by simp, if_false]
      rw [if_neg hmisB]
  have hrelFull : TallyRel (Participant.analyze_locus (q lx) (rB lx) lx).2
      (Participant.tallyProfile q rA (L1 ++ lx :: L2))
      (Participant.tallyProfile q rB (L1 ++ lx :: L2)) := by
    rw [hsplitA, hsplitB, hL1,
      tallyFold_congr q rB rA L2 (fun l hl => (hcells l (fun he => h2 (he ▸ hl))).symm) _]
    exact tallyFold_rel q rA L2 _ _ _ hrel
  obtain ⟨htot, hpart, hmis⟩ := hrelFull
  have hApos : 0 < (Participant.tallyProfile q rA (L1 ++ lx :: L2)).total := by
    unfold Participant.tallyProfile
    exact tallyFold_total_pos q rA _ _ (by norm_num)
  have hple : (Participant.tallyProfile q rA (L1 ++ lx :: L2)).partCnt ≤
      (Participant.tallyProfile q rB (L1 ++ lx :: L2)).partCnt := by
    rcases hpart with h | h
    · exact h.ge
    · rw [h]; exact Nat.le_succ _
  -- unpack the emission of A
  unfold Participant.emitRecord at hemit
  by_cases hid : rid = qid
  · rw [if_pos hid] at hemit
    exact absurd hemit (by simp)
  rw [if_neg hid] at hemit
  split_ifs at hemit with hmisA hpartA
  injection hemit with hrec
  subst hrec
  -- B passes the same admissibility filters
  have hmisB2 : ¬2 < (Participant.tallyProfile q rB (L1 ++ lx :: L2)).misCnt := by
    rw [hmis]
    exact hmisA
  have hpartB2 : ¬(Participant.tallyProfile q rB (L1 ++ lx :: L2)).partCnt < 3 := by
    intro hlt
    exact hpartA (lt_of_le_of_lt hple hlt)
  refine ⟨⟨rid,
    (Participant.tallyProfile q rB (L1 ++ lx :: L2)).total *
      (1 + ((Participant.tallyProfile q rB (L1 ++ lx :: L2)).partCnt : ℚ) * 0.5),
    ((Participant.tallyProfile q rB (L1 ++ lx :: L2)).partCnt : ℚ) / 21,
    (Participant.tallyProfile q rB (L1 ++ lx :: L2)).identCnt +
      (Participant.tallyProfile q rB (L1 ++ lx :: L2)).partCnt,
    (Participant.tallyProfile q rB (L1 ++ lx :: L2)).mutCnt,
    (Participant.tallyProfile q rB (L1 ++ lx :: L2)).missCnt⟩, ?_, ?_⟩
  · unfold Participant.emitRecord
    rw [if_neg hid, if_neg hmisB2, if_neg hpartB2]
  · dsimp only
    have h1le : (Participant.tallyProfile q rA (L1 ++ lx :: L2)).total ≤
        (Participant.tallyProfile q rB (L1 ++ lx :: L2)).total := by
      rw [htot]
      exact le_mul_of_one_le_right hApos.le hscB
    have h2le : 1 + ((Participant.tallyProfile q rA (L1 ++ lx :: L2)).partCnt : ℚ) * 0.5 ≤
        1 + ((Participant.tallyProfile q rB (L1 ++ lx :: L2)).partCnt : ℚ) * 0.5 := by
      have : ((Participant.tallyProfile q rA (L1 ++ lx :: L2)).partCnt : ℚ) ≤
          ((Participant.tallyProfile q rB (L1 ++ lx :: L2)).partCnt : ℚ) :=
        Nat.cast_le.mpr hple
      nlinarith
    refine mul_le_mul h1le h2le ?_ ?_
    · positivity
    · exact (lt_of_lt_of_le hApos h1le).le

/-- Under `mFreqs` every allele of the counterexample has the heterozygous
paternity-index term `0.5 / 0.25 = 2`. -/
theorem lrOf_mFreqs_het (l a : String) (parent : Finset String) (hcard : parent.card = 2)
    (ha : a = "13" ∨ a = "14" ∨ a = "15") :
    Mhngar.lrOf parent (mFreqs l) a = 2 := by
  unfold Mhngar.lrOf mFreqs
  rw [hcard, if_pos ha]
  rw [if_neg (by norm_num), Option.getD_some, max_eq_left (by norm_num)]
  norm_num

/-- Locus evaluation: both alleles match (`"13,14"` against `"13,14"`);
the combined ratio is `sqrt (2 + 2) = 2`. -/
theorem llr_pair (l : String) :
    Mhngar.compute_locus_lr {"13", "14"} {"13", "14"} (mFreqs l) 0.002 =
      (Real.logb 10 2, "consistent") := by
  have hi : ({"13", "14"} : Finset String) ∩ {"13", "14"} = {"13", "14"} := by decide
  have h13 : Mhngar.lrOf {"13", "14"} (mFreqs l) "13" = 2 :=
    lrOf_mFreqs_het l "13" _ (by decide) (by simp)
  have h14 : Mhngar.lrOf {"13", "14"} (mFreqs l) "14" = 2 :=
    lrOf_mFreqs_het l "14" _ (by decide) (by simp)
  have hsum : ({"13", "14"} : Finset String).sum (Mhngar.lrOf {"13", "14"} (mFreqs l)) = 4 := by
    rw [Finset.sum_insert (by decide), Finset.sum_singleton, h13, h14]
    norm_num
  have hCL : Mhngar.consistentLR {"13", "14"} {"13", "14"} (mFreqs l) = 2 := by
    unfold Mhngar.consistentLR
    rw [hi, hsum, if_pos ⟨by decide, by decide⟩, if_pos (by norm_num)]
    rw [show (4 : ℝ) = 2 ^ 2 by norm_num, Real.sqrt_sq (by norm_num)]
  unfold Mhngar.compute_locus_lr
  rw [if_neg (by decide), if_pos (by decide), hCL, if_pos (by norm_num),
    max_eq_left (by norm_num)]

/-- Locus evaluation: exactly allele 13 shared (`"13,14"` vs `"13,15"`). -/
theorem llr_share (l : String) :
    Mhngar.compute_locus_lr {"13", "14"} {"13", "15"} (mFreqs l) 0.002 =
      (Real.logb 10 2, "consistent") := by
  rw [locus_lr_singleton _ _ _ _ "13" (by decide),
    lrOf_mFreqs_het l "13" _ (by decide) (by simp), max_eq_left (by norm_num)]

/-- Locus evaluation: the reversed orientation of `llr_share`. -/
theorem llr_share_rev (l : String) :
    Mhngar.compute_locus_lr {"13", "15"} {"13", "14"} (mFreqs l) 0.002 =
      (Real.logb 10 2, "consistent") := by
  rw [locus_lr_singleton _ _ _ _ "13" (by decide),
    lrOf_mFreqs_het l "13" _ (by decide) (by simp), max_eq_left (by norm_num)]

/-- Loop step where query and candidate both read `"13,14"`. -/
theorem step_pair (q c : String → Cell) (st : Mhngar.BidirState) (l : String)
    (hq : q l = some "13,14") (hc : c l = some "13,14") :
    Mhngar.bidirStep mFreqs q c st l =
      ⟨st.logChild + Real.logb 10 2, st.logParent + Real.logb 10 2,
       st.consChild + 1, st.consParent + 1, st.mutChild, st.mutParent,
       st.missChild, st.missParent, st.exclChild, st.exclParent,
       st.bothMatchChild + 1, st.bothMatchParent + 1⟩ := by
  simp only [Mhngar.bidirStep, hq, hc,
    show Mhngar.parse_alleles (some "13,14") = {"13", "14"} from by decide, llr_pair l]
  simp +decide [Mhngar.bumpIf]

/-- Loop step where the query reads `"13,14"` and the candidate `"13,15"`. -/
theorem step_share (q c : String → Cell) (st : Mhngar.BidirState) (l : String)
    (hq : q l = some "13,14") (hc : c l = some "13,15") :
    Mhngar.bidirStep mFreqs q c st l =
      ⟨st.logChild + Real.logb 10 2, st.logParent + Real.logb 10 2,
       st.consChild + 1, st.consParent + 1, st.mutChild, st.mutParent,
       st.missChild, st.missParent, st.exclChild, st.exclParent,
       st.bothMatchChild, st.bothMatchParent⟩ := by
  simp only [Mhngar.bidirStep, hq, hc,
    show Mhngar.parse_alleles (some "13,14") = {"13", "14"} from by decide,
    show Mhngar.parse_alleles (some "13,15") = {"13", "15"} from by decide,
    llr_share l, llr_share_rev l]
  simp +decide [Mhngar.bumpIf]

/-- Loop step where the candidate locus is missing (`"-"`). -/
theorem step_missing (q c : String → Cell) (st : Mhngar.BidirState) (l : String)
    (hq : q l = some "13,14") (hc : c l = some "-") :
    Mhngar.bidirStep mFreqs q c st l =
      ⟨st.logChild, st.logParent,
       st.consChild, st.consParent, st.mutChild, st.mutParent,
       st.missChild + 1, st.missParent + 1, st.exclChild, st.exclParent,
       st.bothMatchChild, st.bothMatchParent⟩ := by
  simp only [Mhngar.bidirStep, hq, hc,
    show Mhngar.parse_alleles (some "13,14") = {"13", "14"} from by decide,
    show Mhngar.parse_alleles (some "-") = ∅ from by decide,
    locus_lr_missing _ _ (mFreqs l) 0.002 (Or.inr rfl),
    locus_lr_missing ∅ _ (mFreqs l) 0.002 (Or.inl rfl)]
  simp +decide [Mhngar.bumpIf]

/-- The accumulated state for candidate A of the counterexample. -/
theorem chainA :
    mLoci.foldl (Mhngar.bidirStep mFreqs qTwo mCandA) ⟨0, 0, 0, 0, 0, 0, 0, 0, 0, 0, 0, 0⟩ =
      ⟨5 * Real.logb 10 2, 5 * Real.logb 10 2, 5, 5, 0, 0, 1, 1, 0, 0, 1, 1⟩ := by
  simp only [mLoci, List.foldl_cons, List.foldl_nil]
  rw [step_pair qTwo mCandA _ "L1" (by decide) (by decide),
    step_share qTwo mCandA _ "L2" (by decide) (by decide),
    step_share qTwo mCandA _ "L3" (by decide) (by decide),
    step_share qTwo mCandA _ "L4" (by decide) (by decide),
    step_share qTwo mCandA _ "L5" (by decide) (by decide),
    step_missing qTwo mCandA _ "L6" (by decide) (by decide)]
  congr 1 <;> ring

/-- The accumulated state for candidate B of the counterexample. -/
theorem chainB :
    mLoci.foldl (Mhngar.bidirStep mFreqs qTwo mCandB) ⟨0, 0, 0, 0, 0, 0, 0, 0, 0, 0, 0, 0⟩ =
      ⟨6 * Real.logb 10 2, 6 * Real.logb 10 2, 6, 6, 0, 0, 0, 0, 0, 0, 2, 2⟩ := by
  simp only [mLoci, List.foldl_cons, List.foldl_nil]
  rw [step_pair qTwo mCandB _ "L1" (by decide) (by decide),
    step_share qTwo mCandB _ "L2" (by decide) (by decide),
    step_share qTwo mCandB _ "L3" (by decide) (by decide),
    step_share qTwo mCandB _ "L4" (by decide) (by decide),
    step_share qTwo mCandB _ "L5" (by decide) (by decide),
    step_pair qTwo mCandB _ "L6" (by decide) (by decide)]
  congr 1 <;> ring

/-- Candidate A's clr: five consistent loci, one both-match locus out of five
non-missing loci (ratio 0.2 but only 5 non-missing, so no sibling penalty). -/
theorem clrA_eval :
    (Mhngar.compute_clr_bidirectional qTwo mCandA mFreqs mLoci).1 =
      (10 : ℝ) ^ (5 * Real.logb 10 2) := by
  unfold Mhngar.compute_clr_bidirectional
  rw [chainA]
  norm_num

/-- Candidate B's clr: six consistent loci, two both-match loci out of six
non-missing (ratio 1/3 > 0.16), so the sibling penalty `52/15` applies. -/
theorem clrB_eval :
    (Mhngar.compute_clr_bidirectional qTwo mCandB mFreqs mLoci).1 =
      (10 : ℝ) ^ (6 * Real.logb 10 2 - 52 / 15) := by
  unfold Mhngar.compute_clr_bidirectional
  rw [chainB]
  norm_num

/-- C6 (counterexample): in the mhngar submission the claimed monotonicity
is false.  The query carries `"13,14"` at all six loci; candidate B is
identical to candidate A except that the additional locus `"L6"` (missing
`"-"` for A) shares alleles with the query, all other loci held fixed —
yet B's combined likelihood ratio is strictly SMALLER than A's, because the
additional both-alleles-match locus pushes the sibling-penalty ratio of
`compute_clr_bidirectional` past the 0.16 threshold (penalty 52/15 log10
units, far more than the locus's own `log10 2` contribution). -/
theorem C6_counterexample :
    (Mhngar.compute_clr_bidirectional qTwo mCandB mFreqs mLoci).1 <
      (Mhngar.compute_clr_bidirectional qTwo mCandA mFreqs mLoci).1 ∧
    mCandA "L6" = some "-" ∧
    (Mhngar.parse_alleles (qTwo "L6") ∩ Mhngar.parse_alleles (mCandB "L6")).Nonempty ∧
    (mLoci.all fun l => l == "L6" || mCandA l == mCandB l) = true := by
  refine ⟨?_, by decide, by decide, by decide⟩
  rw [clrA_eval, clrB_eval, Real.rpow_lt_rpow_left_iff (by norm_num : (1 : ℝ) < 10)]
  have hl : Real.logb 10 2 < 1 := by
    calc Real.logb 10 2 < Real.logb 10 10 :=
          Real.logb_lt_logb (by norm_num) (by norm_num) (by norm_num)
      _ = 1 := Real.logb_self_eq_one (by norm_num)
  linarith

/-! Claim theorems. -/

/-- C1 (counterexample): in `participant_solution.py` a returned match
record's posterior is `partial_count / 21`, not Bayes' rule applied to the
record's clr with prior 0.5.  On a database of one candidate sharing allele
13 with the query at each of three loci, `match_single` returns a record
with `clr = 2500000` and `posterior = 1/7`, and
`1/7 ≠ (2500000 · 0.5) / (2500000 · 0.5 + 0.5)`. -/
theorem C1_counterexample :
    Participant.match_single "Q" qTwo ["L1", "L2", "L3"] [("C", rShare)] =
      [⟨"C", 2500000, 1 / 7, 3, 0, 0⟩] ∧
    ((1 : ℚ) / 7) ≠ (2500000 * 0.5) / (2500000 * 0.5 + (1 - 0.5)) :=
  ⟨by decide, by decide⟩

/-- C1 (amended): in the mhngar submission (and, after algebraic
simplification, the AmiraliShadi submission) the returned posterior is
`(clr · 0.5) / (clr · 0.5 + 0.5) = clr / (clr + 1)`, which for finite
positive clr lies in the open interval (0, 1) and is strictly increasing in
clr; `participant_solution.py` instead reports `partial_count / 21`. -/
theorem C1_amended_thm (c c' : ℝ) (h : 0 < c) (h' : c < c') :
    Mhngar.posteriorOf c = (c * 0.5) / (c * 0.5 + (1 - 0.5)) ∧
    Mhngar.posteriorOf c = c / (c + 1) ∧
    0 < Mhngar.posteriorOf c ∧ Mhngar.posteriorOf c < 1 ∧
    Mhngar.posteriorOf c < Mhngar.posteriorOf c' ∧
    Amirali.posteriorOf c = Mhngar.posteriorOf c := by
  have key : ∀ x : ℝ, 0 < x → Mhngar.posteriorOf x = x / (x + 1) := by
    intro x hx
    unfold Mhngar.posteriorOf Mhngar.prior
    rw [div_eq_div_iff (by nlinarith) (by nlinarith)]
    ring
  refine ⟨rfl, key c h, ?_, ?_, ?_, ?_⟩
  · rw [key c h]
    exact div_pos h (by linarith)
  · rw [key c h]
    exact (div_lt_one (by linarith)).mpr (by linarith)
  · rw [key c h, key c' (h.trans h')]
    rw [div_lt_div_iff₀ (by linarith) (by nlinarith)]
    nlinarith
  · unfold Amirali.posteriorOf
    rw [if_pos h, key c h]

/-- C1 (witness): the amended claim at `clr = 1` and `clr' = 2`. -/
theorem C1_witness :
    Mhngar.posteriorOf 1 = ((1 : ℝ) * 0.5) / (1 * 0.5 + (1 - 0.5)) ∧
    Mhngar.posteriorOf 1 = 1 / (1 + 1) ∧
    0 < Mhngar.posteriorOf 1 ∧ Mhngar.posteriorOf 1 < 1 ∧
    Mhngar.posteriorOf 1 < Mhngar.posteriorOf 2 ∧
    Amirali.posteriorOf 1 = Mhngar.posteriorOf 1 :=
  C1_amended_thm 1 2 (by norm_num) (by norm_num)

/-- C2 (code-bug exhibit): the mhngar `match_single` cache prologue updates
the cached fingerprint while rebuilding the frequency table, and only then
checks whether the inverted index needs rebuilding — so after the database
content changes under the same sequence of calls, the frequency table is
rebuilt from the new content but the STALE inverted index built from the old
content is served.  Concretely: call one with a database whose single
profile carries allele 13 at locus `L`, call two with the profile mutated to
allele 14; the resulting cache still maps `("L", "13")` to row 0 (the old
index), although a fresh index over the new content would not, while the
frequency table does reflect the new content. -/
theorem C2_thm :
    ((Mhngar.cacheUpdate (Mhngar.cacheUpdate ⟨none, none, none⟩ cLoci [cRowA])
        cLoci [cRowB]).index.map (fun ix => ix "L" "13")) = some [0] ∧
    Mhngar.build_inverted_index cLoci [cRowB] "L" "13" = [] ∧
    Mhngar.build_inverted_index cLoci [cRowA] "L" "13" = [0] ∧
    ((Mhngar.cacheUpdate (Mhngar.cacheUpdate ⟨none, none, none⟩ cLoci [cRowA])
        cLoci [cRowB]).freqs.map (fun f => f "L" "14")) = some (some 1) ∧
    ((Mhngar.cacheUpdate (Mhngar.cacheUpdate ⟨none, none, none⟩ cLoci [cRowA])
        cLoci [cRowB]).freqs.map (fun f => f "L" "13")) = some none ∧
    Mhngar.fingerprint cLoci [cRowA] ≠ Mhngar.fingerprint cLoci [cRowB] := by
  decide

/-- C3 (counterexample): a query `"13,14"` against a candidate `"13,15"` at
the same locus DOES have a raw allele intersection (allele 13), so both the
participant and the mhngar locus comparators classify the locus as
shared/consistent, not as a mutation. -/
theorem C3_counterexample :
    (Participant.parse_alleles (some "13,14") ∩ Participant.parse_alleles (some "13,15")) =
      ({13} : Finset ℚ) ∧
    (Participant.analyze_locus (some "13,14") (some "13,15") "L1").1 = "partial" ∧
    "partial" ≠ "mutation" ∧
    (Mhngar.compute_locus_lr (Mhngar.parse_alleles (some "13,14"))
      (Mhngar.parse_alleles (some "13,15")) (fun _ => none) 0.002).2 = "consistent" ∧
    "consistent" ≠ "mutation" := by
  refine ⟨by decide, by decide, by decide, ?_, by decide⟩
  rw [show Mhngar.parse_alleles (some "13,14") = {"13", "14"} from by decide,
    show Mhngar.parse_alleles (some "13,15") = {"13", "15"} from by decide,
    locus_lr_singleton _ _ _ _ "13" (by decide)]

/-- C3 (amended): `"13,14"` vs `"13,15"` shares allele 13 and is classified
shared/consistent (`partial` in participant_solution, scored off the rarest
shared allele); a mutation classification requires an empty intersection
with an allele pair one repeat step apart, e.g. `"14"` vs `"15"`. -/
theorem C3_amended_thm :
    Participant.analyze_locus (some "13,14") (some "13,15") "L1" = ("partial", 100) ∧
    Participant.analyze_locus (some "14") (some "15") "L1" = ("mutation", 0.1) ∧
    (Mhngar.compute_locus_lr {"14"} {"15"} (fun _ => none) 0.002).2 = "mutation" ∧
    (Mhngar.compute_locus_lr {"13", "14"} {"13", "15"} (fun _ => none) 0.002).2 =
      "consistent" := by
  refine ⟨by decide, by decide, ?_, ?_⟩
  · unfold Mhngar.compute_locus_lr
    rw [if_neg (by decide), if_neg (by decide),
      dif_pos (show ((({"14"} : Finset String) ×ˢ ({"15"} : Finset String)).filter
        (fun pr => Mhngar.check_mutation pr.1 pr.2)).Nonempty from by decide)]
  · rw [locus_lr_singleton _ _ _ _ "13" (by decide)]

/-- C4 (counterexample): in `participant_solution.py` the shared-locus
likelihood ratio has NO transmission-probability factor: for query
`"13,14"` vs heterozygous candidate `"13,16"` (shared allele 13, default
frequency 0.01) the score is `1 / 0.01 = 100`, not the claimed
`0.5 / 0.01 = 50`. -/
theorem C4_counterexample :
    (Participant.parse_alleles (some "13,14") ∩ Participant.parse_alleles (some "13,16")) =
      ({13} : Finset ℚ) ∧
    (Participant.parse_alleles (some "13,16")).card = 2 ∧
    Participant.analyze_locus (some "13,14") (some "13,16") "L1" = ("partial", 100) ∧
    (100 : ℚ) ≠ (1 / 2) / Participant.get_freq "L1" 13 := by
  decide

/-- C4 (amended): in the mhngar submission, when exactly one allele `a` is
shared the per-locus likelihood ratio is `p / max(freq a, 1e-4)` with
transmission probability `p = 1.0` for a homozygous parent-side set
(cardinality 1) and `0.5` otherwise, floored at 1.0 before `log10`;
participant_solution omits the transmission factor and AmiraliShadi always
uses `1/(2f)`. -/
theorem C4_amended_thm (child parent : Finset String) (freqs : String → Option ℝ)
    (mr : ℝ) (a : String) (h : child ∩ parent = {a}) :
    Mhngar.compute_locus_lr child parent freqs mr =
      (Real.logb 10 (max ((if parent.card = 1 then (1 : ℝ) else 1 / 2) /
        max ((freqs a).getD 0.0001) 0.0001) 1), "consistent") :=
  locus_lr_singleton child parent freqs mr a h

/-- C4 (witness): the amended claim at the homozygous pair `{"13"}`,
`{"13"}` with an empty frequency table. -/
theorem C4_witness :
    (({"13"} : Finset String) ∩ {"13"}) = {"13"} ∧
    Mhngar.compute_locus_lr {"13"} {"13"} (fun _ => none) 0.002 =
      (Real.logb 10 (max ((if ({"13"} : Finset String).card = 1 then (1 : ℝ) else 1 / 2) /
        max ((none : Option ℝ).getD 0.0001) 0.0001) 1), "consistent") :=
  ⟨by decide, C4_amended_thm {"13"} {"13"} (fun _ => none) 0.002 "13" (by decide)⟩

/-- C5: both locus comparators are total functions assigning exactly one
classification: `compute_locus_lr` always returns one of
`missing / consistent / mutation / exclusion`, and `analyze_locus` always
returns one of `missing / identical / partial / mutation / mismatch`
(`identical` and `partial` being the shared class and `mismatch` the
exclusion class), for every pair of allele sets including empty sets and
sets produced from malformed text. -/
theorem C5_thm (child parent : Finset String) (freqs : String → Option ℝ) (mr : ℝ)
    (qv cv : Cell) (l : String) :
    ((Mhngar.compute_locus_lr child parent freqs mr).2 = "missing" ∨
      (Mhngar.compute_locus_lr child parent freqs mr).2 = "consistent" ∨
      (Mhngar.compute_locus_lr child parent freqs mr).2 = "mutation" ∨
      (Mhngar.compute_locus_lr child parent freqs mr).2 = "exclusion") ∧
    ((Participant.analyze_locus qv cv l).1 = "missing" ∨
      (Participant.analyze_locus qv cv l).1 = "identical" ∨
      (Participant.analyze_locus qv cv l).1 = "partial" ∨
      (Participant.analyze_locus qv cv l).1 = "mutation" ∨
      (Participant.analyze_locus qv cv l).1 = "mismatch") := by
  constructor
  · unfold Mhngar.compute_locus_lr
    split_ifs <;> simp
  · unfold Participant.analyze_locus
    split_ifs <;> simp

/-- C6 (witness): the amended claim at a concrete query and candidate pair
over four loci (three shared `"13,15"` loci plus the extra locus `"L4"`,
missing for A and shared for B). -/
theorem C6_witness :
    Participant.emitRecord "Q" qTwo ["L1", "L2", "L3", "L4"] "C" rShareMiss =
      some ⟨"C", 2500000, 1 / 7, 3, 0, 1⟩ ∧
    ∃ recB, Participant.emitRecord "Q" qTwo ["L1", "L2", "L3", "L4"] "C" rShare =
        some recB ∧
      (⟨"C", 2500000, 1 / 7, 3, 0, 1⟩ : Participant.MatchRec).clr ≤ recB.clr := by
  refine ⟨by decide, ?_⟩
  have h := C6_amended_thm "Q" "C" qTwo rShareMiss rShare ["L1", "L2", "L3"] [] "L4"
    (fun l hl => by simp [rShareMiss, hl])
    (by decide) (by decide) (by decide) (by decide) (by decide) (by decide)
    ⟨"C", 2500000, 1 / 7, 3, 0, 1⟩ (by decide)
  exact h

/-- C7 (counterexample): the mhngar `parse_alleles` does NOT parse tokens as
decimal numbers nor discard non-numeric tokens: the malformed value
`"abc"` (non-numeric, `float` would raise) is kept verbatim as the
singleton allele set `{"abc"}`, not degraded to the empty set. -/
theorem C7_counterexample :
    Mhngar.parse_alleles (some "abc") = ({"abc"} : Finset String) ∧
    pyFloat? "abc" = none ∧
    Mhngar.parse_alleles (some "abc") ≠ ∅ := by
  decide

/-- C7 (amended): in `participant_solution.py` parsing is total and lenient
exactly as claimed: every parsed allele comes from a comma-separated,
stripped token that parses as a decimal number; non-numeric, empty and
`"-"` tokens are discarded; NaN, `"-"`, empty and fully malformed values
degrade to the empty allele set.  In the mhngar submission parsing is also
total but keeps raw string tokens without numeric validation. -/
theorem C7_amended_thm :
    (∀ v : Cell, ∀ a : ℚ, a ∈ Participant.parse_alleles v →
      ∃ s, v = some s ∧ ∃ t ∈ (pySplit (pyStrip s)).map pyStrip, pyFloat? t = some a) ∧
    Participant.parse_alleles (some "abc") = ∅ ∧
    Participant.parse_alleles (some " - ") = ∅ ∧
    Participant.parse_alleles (some "") = ∅ ∧
    Participant.parse_alleles none = ∅ ∧
    Participant.parse_alleles (some "13, x, 9.3") = ({13, 93 / 10} : Finset ℚ) := by
  refine ⟨?_, by decide, by decide, by decide, by decide, by decide⟩
  intro v a ha
  match v with
  | none => simp [Participant.parse_alleles] at ha
  | some s =>
    refine ⟨s, rfl, ?_⟩
    unfold Participant.parse_alleles at ha
    dsimp only at ha
    split_ifs at ha with hx
    · simp at ha
    · rw [List.mem_toFinset] at ha
      obtain ⟨t, ht, hpt⟩ := List.mem_filterMap.mp ha
      refine ⟨t, ht, ?_⟩
      by_cases hc : t ≠ "" ∧ t ≠ "-"
      · rw [if_pos hc] at hpt
        exact hpt
      · rw [if_neg hc] at hpt
        cases hpt

/-- C7 (witness): the membership characterisation at the value `"13"`. -/
theorem C7_witness :
    (13 : ℚ) ∈ Participant.parse_alleles (some "13") ∧
    ∃ s, (some "13" : Cell) = some s ∧
      ∃ t ∈ (pySplit (pyStrip s)).map pyStrip, pyFloat? t = some 13 :=
  ⟨by decide, C7_amended_thm.1 (some "13") 13 (by decide)⟩

/-- C8 (counterexample): in `participant_solution.py` a non-empty
unparseable value such as `"abc"` yields an EMPTY allele set yet is NOT
treated as missing: against `"13"` the locus is classified `mismatch` with
the non-neutral factor `0.0001` (and is counted as a mismatch, not as
inconclusive). -/
theorem C8_counterexample :
    Participant.parse_alleles (some "abc") = ∅ ∧
    Participant.analyze_locus (some "abc") (some "13") "L1" = ("mismatch", 0.0001) ∧
    "mismatch" ≠ "missing" ∧ (0.0001 : ℚ) ≠ 1 := by
  decide

/-- C8 (amended): a locus whose value is NaN / `"-"` / `""` (participant) or
whose parsed allele set is empty on either side (mhngar) contributes the
neutral element (factor 1, resp. 0 in log space), is classified missing,
and in the mhngar loop increments only the missing counters, leaving the
consistent and mutation counters and the log sum unchanged; but in
`participant_solution.py` a non-empty unparseable value is classified
`mismatch` instead (see the counterexample). -/
theorem C8_amended_thm (child parent : Finset String) (freqsL : String → Option ℝ)
    (mr : ℝ) (qv cv : Cell) (l : String) (freqs : String → String → Option ℝ)
    (q c : String → Cell) (st : Mhngar.BidirState) (locus : String) :
    (child = ∅ ∨ parent = ∅ →
      Mhngar.compute_locus_lr child parent freqsL mr = (0, "missing")) ∧
    (Participant.normalize_str qv = "-" ∨ Participant.normalize_str cv = "-" →
      Participant.analyze_locus qv cv l = ("missing", 1)) ∧
    (Mhngar.parse_alleles (q locus) = ∅ ∨ Mhngar.parse_alleles (c locus) = ∅ →
      (Mhngar.bidirStep freqs q c st locus).missChild = st.missChild + 1 ∧
      (Mhngar.bidirStep freqs q c st locus).missParent = st.missParent + 1 ∧
      (Mhngar.bidirStep freqs q c st locus).consChild = st.consChild ∧
      (Mhngar.bidirStep freqs q c st locus).mutChild = st.mutChild ∧
      (Mhngar.bidirStep freqs q c st locus).logChild = st.logChild) := by
  refine ⟨locus_lr_missing child parent freqsL mr, analyze_missing qv cv l, ?_⟩
  intro h
  have h1 : Mhngar.compute_locus_lr (Mhngar.parse_alleles (q locus))
      (Mhngar.parse_alleles (c locus)) (freqs locus) 0.002 = (0, "missing") :=
    locus_lr_missing _ _ _ _ h
  have h2 : Mhngar.compute_locus_lr (Mhngar.parse_alleles (c locus))
      (Mhngar.parse_alleles (q locus)) (freqs locus) 0.002 = (0, "missing") :=
    locus_lr_missing _ _ _ _ h.symm
  simp [Mhngar.bidirStep, h1, h2, Mhngar.bumpIf]

/-- C8 (witness): the amended claim at concrete missing inputs. -/
theorem C8_witness :
    Mhngar.compute_locus_lr ∅ {"13"} (fun _ => none) 0.002 = (0, "missing") ∧
    Participant.analyze_locus none (some "13") "L1" = ("missing", 1) ∧
    (Mhngar.bidirStep (fun _ _ => none) (fun _ => none) (fun _ => some "13")
      ⟨0, 0, 0, 0, 0, 0, 0, 0, 0, 0, 0, 0⟩ "L").missChild = 0 + 1 := by
  have h := C8_amended_thm ∅ {"13"} (fun _ => none) 0.002 none (some "13") "L1"
    (fun _ _ => none) (fun _ => none) (fun _ => some "13")
    ⟨0, 0, 0, 0, 0, 0, 0, 0, 0, 0, 0, 0⟩ "L"
  exact ⟨h.1 (Or.inl rfl), h.2.1 (Or.inl rfl), (h.2.2 (Or.inl (by decide))).1⟩

/-- C9: in the mhngar submission, a locus whose allele sets intersect always
contributes a log10 value of at least 0 with status `consistent` — the
shared-allele ratio is floored at 1.0 before the logarithm, so a shared
locus can never decrease the combined likelihood ratio, whatever the
frequency table says. -/
theorem C9_thm (child parent : Finset String) (freqs : String → Option ℝ) (mr : ℝ)
    (h : (child ∩ parent).Nonempty) :
    0 ≤ (Mhngar.compute_locus_lr child parent freqs mr).1 ∧
    (Mhngar.compute_locus_lr child parent freqs mr).2 = "consistent" :=
  locus_lr_consistent child parent freqs mr h

/-- C9 (witness): the claim at the concrete pair `{"13"}`, `{"13"}`. -/
theorem C9_witness :
    0 ≤ (Mhngar.compute_locus_lr {"13"} {"13"} (fun _ => none) 0.002).1 ∧
    (Mhngar.compute_locus_lr {"13"} {"13"} (fun _ => none) 0.002).2 = "consistent" :=
  C9_thm {"13"} {"13"} (fun _ => none) 0.002 (by decide)

end Lemmas

end STRMatch
